import Mathlib

/-!
Shallow embedding of the hours parser / evaluator core of
`src/build_geojson.py` (tabelog-map), together with theorems checking the
natural-language specification against it.

Strings are modelled as `List Char`; Python minute arithmetic as `Int`;
dict-shaped records as Lean structures; the regex scanners `RANGE_RE`,
`LO_RE` and the normalization substitutions of `_norm` as explicit
character-level scanners with the same leftmost, non-overlapping,
greedy-with-the-needed-backtracking semantics.
-/

namespace BuildGeojson

/-- Python `\s` whitespace for the ASCII range actually exercised here. -/
def isPySpace (c : Char) : Bool :=
  c = ' ' || c = '\t' || c = '\n' || c = '\r' || c = '\x0b' || c = '\x0c'

def digitVal (c : Char) : Nat := c.toNat - 48

/-- A parsed `H:MM` time literal, kept unnormalized (only `toMinutes`
applies the `24 → 0` rule), mirroring the source keeping times as strings. -/
structure Hm where
  h : Nat
  m : Nat
deriving DecidableEq, Repr

/-- `_to_minutes`: `h = 0 if h == 24 else h; return h*60 + m`. -/
def toMinutes (t : Hm) : Int :=
  ((if t.h = 24 then 0 else t.h) : Int) * 60 + t.m

/-- The `last_order` dict: presence of the keys generic / food / drinks. -/
structure LastOrder where
  generic : Option Hm
  food : Option Hm
  drinks : Option Hm
deriving DecidableEq, Repr

def LastOrder.empty : LastOrder := ⟨none, none, none⟩

/-- One time block of a day schedule. `last_order = none` models the
Python `None`; `carried_from_prev` is set only by `summarize_for_today`. -/
structure Block where
  open_time : Hm
  close_time : Hm
  crosses_midnight : Bool
  last_order : Option LastOrder
  carried_from_prev : Bool
deriving DecidableEq, Repr

/-- The `segment` sub-dict of an open result. -/
structure Segment where
  start_t : Hm
  end_t : Hm
  last_order : Option LastOrder
deriving DecidableEq, Repr

/-- Result of `calc_open_now`. The early `{"status": "closed"}` return
(no `opens_in_min` key) and `opens_in_min = None` both read back as
`None` via `.get`, so both are `closed none`. -/
inductive OpenNow where
  | closed (opens_in_min : Option Int)
  | isOpen (segment : Segment) (closes_in_min : Int) (lo_in_min : Option Int)
      (crosses_midnight : Bool)
deriving DecidableEq, Repr

/-- The per-block window test of `calc_open_now`. -/
def inWindow (b : Block) (now : Int) : Bool :=
  let s := toMinutes b.open_time
  let e := toMinutes b.close_time
  if b.crosses_midnight then decide (now ≥ s) || decide (now < e)
  else decide (s ≤ now) && decide (now < e)

/-- `closes_in` as computed on a matched block. -/
def closesIn (b : Block) (now : Int) : Int :=
  let s := toMinutes b.open_time
  let e := toMinutes b.close_time
  if b.crosses_midnight then (if now ≥ s then (24*60 - now) + e else e - now)
  else e - now

/-- The `lo_times` list: minutes of the present kinds, in the source's
fixed key order generic, food, drinks. -/
def loTimes (b : Block) : List Int :=
  match b.last_order with
  | none => []
  | some lo => ([lo.generic, lo.food, lo.drinks].filterMap id).map toMinutes

def listMin : List Int → Option Int
  | [] => none
  | x :: xs => some (xs.foldl min x)

/-- `lo_in` as computed on a matched block. -/
def loIn (b : Block) (now : Int) : Option Int :=
  match listMin (loTimes b) with
  | none => none
  | some loT =>
    let s := toMinutes b.open_time
    let e := toMinutes b.close_time
    if b.crosses_midnight then
      if now ≥ s then
        if loT ≥ s then some (max (loT - now) 0) else some ((24*60 - now) + loT)
      else
        if loT ≥ now then some (max (loT - now) 0) else none
    else
      if now ≤ loT ∧ loT ≤ e then some (max (loT - now) 0) else none

/-- `lo or None` in the returned segment: an all-absent dict reads falsy. -/
def segLastOrder (b : Block) : Option LastOrder :=
  match b.last_order with
  | none => none
  | some lo => if lo = LastOrder.empty then none else some lo

/-- The first block (scan order) whose window contains `now`. -/
def findOpenBlock : List Block → Int → Option Block
  | [], _ => none
  | b :: rest, now => if inWindow b now then some b else findOpenBlock rest now

/-- The `first_future` loop: first non-carried block with `open > now`. -/
def firstFuture : List Block → Int → Option Int
  | [], _ => none
  | b :: rest, now =>
    if b.carried_from_prev then firstFuture rest now
    else if toMinutes b.open_time > now then some (toMinutes b.open_time - now)
    else firstFuture rest now

/-- `calc_open_now`. The `"closed"` sentinel argument behaves like the
empty list (both hit the first early return). -/
def calc_open_now (blocks_for_day : List Block) (now : Int) : OpenNow :=
  if blocks_for_day.isEmpty then .closed none
  else
    match findOpenBlock blocks_for_day now with
    | some b =>
        .isOpen ⟨b.open_time, b.close_time, segLastOrder b⟩ (closesIn b now)
          (loIn b now) b.crosses_midnight
    | none => .closed (firstFuture blocks_for_day now)

/-! ### Character scanners for `RANGE_RE`, `LO_RE` and `_norm` -/

/-- `pat` is a leading segment of `s`. -/
def leadsWith : List Char → List Char → Bool
  | [], _ => true
  | _ :: _, [] => false
  | p :: ps, c :: cs => p = c && leadsWith ps cs

/-- Python `pat in s` substring test (nonempty `pat` here). -/
def containsSub (pat : List Char) : List Char → Bool
  | [] => pat.isEmpty
  | c :: rest => leadsWith pat (c :: rest) || containsSub pat rest

/-- Python `s.replace(pat, rep)`: leftmost, non-overlapping.  Structural
recursion on a fuel that starts at the string length; every step strictly
shortens the string, so the fuel never runs out before the string does. -/
def replaceSubF (pat rep : List Char) : Nat → List Char → List Char
  | 0, cs => cs
  | _ + 1, [] => []
  | fuel + 1, c :: rest =>
    if leadsWith pat (c :: rest) then
      rep ++ replaceSubF pat rep fuel (rest.drop (pat.length - 1))
    else c :: replaceSubF pat rep fuel rest

def replaceSub (pat rep cs : List Char) : List Char :=
  replaceSubF pat rep cs.length cs

/-- Python `s.strip()`. -/
def stripPy (cs : List Char) : List Char :=
  ((cs.dropWhile isPySpace).reverse.dropWhile isPySpace).reverse

/-- `re.sub(r'\s+', ' ', ·)` applied to an already-stripped string:
the flag records whether a whitespace run is pending. -/
def collapseWsAux : Bool → List Char → List Char
  | _, [] => []
  | pending, c :: rest =>
    if isPySpace c then collapseWsAux true rest
    else if pending then ' ' :: c :: collapseWsAux false rest
    else c :: collapseWsAux false rest

/-- number of leading Python-whitespace chars, and the remainder. -/
def dropSpacesCount : List Char → Nat × List Char
  | [] => (0, [])
  | c :: rest =>
    if isPySpace c then
      let (n, r) := dropSpacesCount rest
      (n + 1, r)
    else (0, c :: rest)

/-- `\.?` : consumed length and remainder. -/
def matchOptDot : List Char → Nat × List Char
  | '.' :: rest => (1, rest)
  | cs => (0, cs)

/-- `(?i)L\.?\s*\.?O\.?` of `_norm`, anchored at the head: the consumed
length on success.  The greedy optionals never need backtracking here
because no later atom can consume `'.'` or whitespace. -/
def matchLoVariant (cs : List Char) : Option Nat :=
  match cs with
  | c :: r0 =>
    if c = 'L' || c = 'l' then
      let (d1, r1) := matchOptDot r0
      let (n1, r2) := dropSpacesCount r1
      let (d2, r3) := matchOptDot r2
      match r3 with
      | o :: r4 =>
        if o = 'O' || o = 'o' then
          let (d3, _) := matchOptDot r4
          some (1 + d1 + n1 + d2 + 1 + d3)
        else none
      | [] => none
    else none
  | [] => none

/-- `re.sub(LO-variant, 'LO', ·)`: leftmost, non-overlapping. -/
def loSubF : Nat → List Char → List Char
  | 0, cs => cs
  | _ + 1, [] => []
  | fuel + 1, c :: rest =>
    match matchLoVariant (c :: rest) with
    | some k => 'L' :: 'O' :: loSubF fuel (rest.drop (k - 1))
    | none => c :: loSubF fuel rest

def loSub (cs : List Char) : List Char := loSubF cs.length cs

/-- `_norm`: dash/`"to"` unification, whitespace collapse, LO unification. -/
def norm (s : List Char) : List Char :=
  loSub (collapseWsAux false (stripPy
    (replaceSub ['t','o'] ['-']
      (replaceSub ['～'] ['-']
        (replaceSub ['—'] ['-']
          (replaceSub ['–'] ['-']
            (replaceSub ['〜'] ['-'] s)))))))

/-- `\d{1,2}:\d{2}` anchored at the head: the time and consumed length.
The greedy two-digit-hour attempt backtracks to one digit exactly when
the third char is not `':'`, as in the regex engine. -/
def matchTime (cs : List Char) : Option (Hm × Nat) :=
  match cs with
  | a :: b :: c :: d :: e :: _ =>
    if a.isDigit && b.isDigit && c = ':' && d.isDigit && e.isDigit then
      some (⟨digitVal a * 10 + digitVal b, digitVal d * 10 + digitVal e⟩, 5)
    else if a.isDigit && b = ':' && c.isDigit && d.isDigit then
      some (⟨digitVal a, digitVal c * 10 + digitVal d⟩, 4)
    else none
  | a :: b :: c :: d :: [] =>
    if a.isDigit && b = ':' && c.isDigit && d.isDigit then
      some (⟨digitVal a, digitVal c * 10 + digitVal d⟩, 4)
    else none
  | _ => none

/-- The `[-–~]` character class of `RANGE_RE`. -/
def isRangeDash (c : Char) : Bool := c = '-' || c = '–' || c = '~'

/-- `RANGE_RE` anchored at the head: start time, end time, length. -/
def matchRangeAt (cs : List Char) : Option (Hm × Hm × Nat) :=
  match matchTime cs with
  | none => none
  | some (t1, k1) =>
    let (n1, r2) := dropSpacesCount (cs.drop k1)
    match r2 with
    | d :: r3 =>
      if isRangeDash d then
        let (n2, r4) := dropSpacesCount r3
        match matchTime r4 with
        | some (t2, k2) => some (t1, t2, k1 + n1 + 1 + n2 + k2)
        | none => none
      else none
    | [] => none

/-- A `RANGE_RE` match: `m.start()`, `m.end()`, the two captured times. -/
structure RangeM where
  rstart : Nat
  rend : Nat
  s : Hm
  e : Hm
deriving DecidableEq, Repr

/-- `RANGE_RE.finditer`: scan left to right, resuming after each match. -/
def findRangesAuxF : Nat → List Char → Nat → List RangeM
  | 0, _, _ => []
  | _ + 1, [], _ => []
  | fuel + 1, c :: rest, pos =>
    match matchRangeAt (c :: rest) with
    | some (t1, t2, k) =>
        ⟨pos, pos + k, t1, t2⟩ :: findRangesAuxF fuel (rest.drop (k - 1)) (pos + k)
    | none => findRangesAuxF fuel rest (pos + 1)

def findRangesAux (cs : List Char) (pos : Nat) : List RangeM :=
  findRangesAuxF cs.length cs pos

/-- `RANGE_RE.search(...)` is truthy. -/
def rangeSearch (cs : List Char) : Bool := !(findRangesAux cs 0).isEmpty

/-- An `LO_RE` match: `m.start()`, the lowered qualifier capture (None for
a bare `LO`), the captured time. -/
structure LoM where
  lpos : Nat
  kind : Option (List Char)
  t : Hm
deriving DecidableEq, Repr

/-- Case-insensitive literal keyword at the head of `cs` (keyword given in
lower case); returns the remainder.  The source lower-cases the capture,
which for these ASCII keywords is exactly the keyword itself. -/
def matchKwCI (kw : List Char) (cs : List Char) : Option (List Char) :=
  match kw, cs with
  | [], rest => some rest
  | _ :: _, [] => none
  | k :: ks, c :: rest => if c.toLower = k then matchKwCI ks rest else none

/-- The tail `(?:(Food|Foods?|Drink|Drinks?)\s*)?(\d{1,2}:\d{2})` of
`LO_RE`.  The regex backtracking order collapses to trying the keywords
food, foods, drink, drinks (each followed by `\s*` and a time) and then
the bare time. -/
def tryQualThenTime (cs : List Char) (base : Nat) :
    Option (Option (List Char) × Hm × Nat) :=
  let tryKw : List Char → Option (Option (List Char) × Hm × Nat) := fun kw =>
    match matchKwCI kw cs with
    | none => none
    | some r1 =>
      let (n, r2) := dropSpacesCount r1
      match matchTime r2 with
      | some (t, kt) => some (some kw, t, base + kw.length + n + kt)
      | none => none
  (((tryKw ['f','o','o','d']).orElse fun _ => tryKw ['f','o','o','d','s']).orElse
      fun _ => (tryKw ['d','r','i','n','k']).orElse
        fun _ => tryKw ['d','r','i','n','k','s']).orElse
    fun _ =>
      match matchTime cs with
      | some (t, kt) => some (none, t, base + kt)
      | none => none

/-- `LO_RE` anchored at the head: qualifier, time, consumed length. -/
def matchLOAt (cs : List Char) : Option (Option (List Char) × Hm × Nat) :=
  match cs with
  | c :: r0 =>
    if c = 'L' || c = 'l' then
      let (d1, r1) := matchOptDot r0
      let (n1, r2) := dropSpacesCount r1
      match r2 with
      | o :: r3 =>
        if o = 'O' || o = 'o' then
          let (d2, r4) := matchOptDot r3
          let (n2, r5) := dropSpacesCount r4
          tryQualThenTime r5 (1 + d1 + n1 + 1 + d2 + n2)
        else none
      | [] => none
    else none
  | [] => none

/-- `LO_RE.finditer`. -/
def findLOsAuxF : Nat → List Char → Nat → List LoM
  | 0, _, _ => []
  | _ + 1, [], _ => []
  | fuel + 1, c :: rest, pos =>
    match matchLOAt (c :: rest) with
    | some (q, t, k) =>
        ⟨pos, q, t⟩ :: findLOsAuxF fuel (rest.drop (k - 1)) (pos + k)
    | none => findLOsAuxF fuel rest (pos + 1)

def findLOsAux (cs : List Char) (pos : Nat) : List LoM :=
  findLOsAuxF cs.length cs pos

/-! ### `parse_time_ranges` -/

/-- The kind-dispatch assignment of one LO marker into the dict:
no qualifier → generic, a qualifier containing `"drink"` → drinks,
any other qualifier → food; assignment overwrites (last write wins). -/
def loKindAssign (acc : LastOrder) (l : LoM) : LastOrder :=
  match l.kind with
  | none => { acc with generic := some l.t }
  | some q =>
    if containsSub ['d','r','i','n','k'] q then { acc with drinks := some l.t }
    else { acc with food := some l.t }

/-- `rs <= lo_pos < next_range_start` (`next = none` models `inf`). -/
def inLoWindow (rs : Nat) (nextStart : Option Nat) (p : Nat) : Bool :=
  decide (rs ≤ p) &&
    (match nextStart with
     | none => true
     | some n => decide (p < n))

/-- One block of the `parse_time_ranges` loop body. -/
def mkBlock (rs : Nat) (nextStart : Option Nat) (t1 t2 : Hm) (los : List LoM) :
    Block :=
  let lo := los.foldl
    (fun acc l => if inLoWindow rs nextStart l.lpos then loKindAssign acc l else acc)
    LastOrder.empty
  { open_time := t1, close_time := t2,
    crosses_midnight := decide (toMinutes t2 ≤ toMinutes t1),
    last_order := if lo = LastOrder.empty then none else some lo,
    carried_from_prev := false }

/-- The per-range loop: `next_range_start` is the next range's start. -/
def buildBlocks : List RangeM → List LoM → List Block
  | [], _ => []
  | r :: rest, los =>
      mkBlock r.rstart (rest.head?.map (·.rstart)) r.s r.e los :: buildBlocks rest los

/-- `parse_time_ranges`. -/
def parse_time_ranges (dtl : List Char) : List Block :=
  let text := norm dtl
  buildBlocks (findRangesAux text 0) (findLOsAux text 0)

/-! ### `_split_and_normalize_days` -/

inductive Day where
  | mon | tue | wed | thu | fri | sat | sun
deriving DecidableEq, Repr

def DAY_ORDER : List Day := [.mon, .tue, .wed, .thu, .fri, .sat, .sun]

/-- `DAY_ORDER.index`. -/
def dayIndex : Day → Nat
  | .mon => 0 | .tue => 1 | .wed => 2 | .thu => 3 | .fri => 4 | .sat => 5 | .sun => 6

/-- `DAY_ALIASES` lookup on a lower-cased token. -/
def dayAlias (s : List Char) : Option Day :=
  if s = "mon".toList ∨ s = "monday".toList then some .mon
  else if s = "tue".toList ∨ s = "tuesday".toList then some .tue
  else if s = "wed".toList ∨ s = "wednesday".toList then some .wed
  else if s = "thu".toList ∨ s = "thursday".toList then some .thu
  else if s = "fri".toList ∨ s = "friday".toList then some .fri
  else if s = "sat".toList ∨ s = "saturday".toList then some .sat
  else if s = "sun".toList ∨ s = "sunday".toList then some .sun
  else none

/-- The membership test `tok in DAY_ORDER` on a 3-letter string. -/
def dayOfAbbrev (s : List Char) : Option Day :=
  if s = "mon".toList then some .mon
  else if s = "tue".toList then some .tue
  else if s = "wed".toList then some .wed
  else if s = "thu".toList then some .thu
  else if s = "fri".toList then some .fri
  else if s = "sat".toList then some .sat
  else if s = "sun".toList then some .sun
  else none

/-- `DAY_ALIASES.get(a, a[:3])` followed by `a in DAY_ORDER`. -/
def resolveDayTok (tok : List Char) : Option Day :=
  match dayAlias tok with
  | some d => some d
  | none => dayOfAbbrev (tok.take 3)

inductive SpecialTag where
  | public_holiday | day_before_public_holiday | day_after_public_holiday
deriving DecidableEq, Repr

/-- `SPECIAL_KEYS` lookup on a lower-cased chunk. -/
def specialKey (s : List Char) : Option SpecialTag :=
  if s = "public holiday".toList then some .public_holiday
  else if s = "day before public holiday".toList then some .day_before_public_holiday
  else if s = "day after public holiday".toList then some .day_after_public_holiday
  else none

/-- The `special` dict: three boolean flags plus the `raw_titles` set,
modelled as a duplicate-free list in insertion order. -/
structure SpecialInfo where
  ph : Bool
  before_ph : Bool
  after_ph : Bool
  raw_titles : List (List Char)
deriving DecidableEq, Repr

def emptySpecial : SpecialInfo := ⟨false, false, false, []⟩

/-- `special.setdefault("raw_titles", set()).add(c)`. -/
def addRawTitle (sp : SpecialInfo) (c : List Char) : SpecialInfo :=
  if c ∈ sp.raw_titles then sp else { sp with raw_titles := sp.raw_titles ++ [c] }

def setTag (sp : SpecialInfo) : SpecialTag → SpecialInfo
  | .public_holiday => { sp with ph := true }
  | .day_before_public_holiday => { sp with before_ph := true }
  | .day_after_public_holiday => { sp with after_ph := true }

/-- `re.match(r'([A-Za-z]{3,9})\s*-\s*([A-Za-z]{3,9})', key2)`.
Anchored; the first group must be the whole leading letter run (a longer
run makes every greedy/backtracked split fail on the following `\s*-`),
the second greedy group takes at most 9 of the following run with
nothing required after it. -/
def matchDayRange (cs : List Char) : Option (List Char × List Char) :=
  let run1 := cs.takeWhile Char.isAlpha
  if 3 ≤ run1.length ∧ run1.length ≤ 9 then
    let r2 := (cs.drop run1.length).dropWhile isPySpace
    match r2 with
    | '-' :: r3 =>
      let run2 := (r3.dropWhile isPySpace).takeWhile Char.isAlpha
      if 3 ≤ run2.length then some (run1, run2.take 9) else none
    | _ => none
  else none

/-- `key.replace(" to ", "-").replace('–','-').replace('—','-')`. -/
def key2Of (key : List Char) : List Char :=
  replaceSub ['—'] ['-'] (replaceSub ['–'] ['-']
    (replaceSub [' ','t','o',' '] ['-'] key))

/-- Python slice expansion `DAY_ORDER[ia:ib+1]` resp. the wrapped
`DAY_ORDER[ia:] + DAY_ORDER[:ib+1]`. -/
def expandDays (ia ib : Nat) : List Day :=
  if ia ≤ ib then (DAY_ORDER.drop ia).take (ib + 1 - ia)
  else DAY_ORDER.drop ia ++ DAY_ORDER.take (ib + 1)

def lowerStr (cs : List Char) : List Char := cs.map Char.toLower

/-- The per-chunk body of `_split_and_normalize_days`; `c` is the
stripped chunk in its original case. -/
def processChunk (acc : List Day × SpecialInfo) (c : List Char) :
    List Day × SpecialInfo :=
  let key := lowerStr c
  match dayAlias key with
  | some d => (acc.1 ++ [d], acc.2)
  | none =>
    match specialKey key with
    | some tag => (acc.1, setTag acc.2 tag)
    | none =>
      match matchDayRange (key2Of key) with
      | some (t1, t2) =>
        match resolveDayTok t1, resolveDayTok t2 with
        | some a, some b => (acc.1 ++ expandDays (dayIndex a) (dayIndex b), acc.2)
        | _, _ => acc
      | none => (acc.1, addRawTitle acc.2 c)

/-- Python `title.split(",")` (keeps empty parts). -/
def splitOnCommaAux : List Char → List Char → List (List Char)
  | [], cur => [cur.reverse]
  | ',' :: rest, cur => cur.reverse :: splitOnCommaAux rest []
  | c :: rest, cur => splitOnCommaAux rest (c :: cur)

/-- `_split_and_normalize_days`. -/
def split_and_normalize_days (title : List Char) : List Day × SpecialInfo :=
  if title = [] then ([], emptySpecial)
  else ((splitOnCommaAux title []).map stripPy).foldl processChunk ([], emptySpecial)

/-! ### `build_schedule_fixed` -/

/-- A day's schedule: the `"closed"` sentinel or a block list. -/
inductive DaySched where
  | closed
  | blocks (bs : List Block)
deriving DecidableEq, Repr

/-- One raw hours entry (its `title`/`list_title` and `dtl` fields). -/
structure Entry where
  title : List Char
  dtl : List Char
deriving DecidableEq, Repr

structure Exceptions where
  policies : List (List Char)
  public_holiday : List Block
  day_before_public_holiday : List Block
  day_after_public_holiday : List Block
deriving DecidableEq, Repr

abbrev Weekly := Day → DaySched

structure BuildState where
  weekly : Weekly
  exceptions : Exceptions

/-- `explicit_closed`: the check runs `RANGE_RE` on the stripped,
lower-cased detail directly, NOT on the `_norm`-normalized text. -/
def explicitClosed (dtl : List Char) : Bool :=
  let dl := lowerStr (stripPy dtl)
  dl = "closed".toList ||
    (containsSub ['c','l','o','s','e','d'] dl && !rangeSearch dl)

def updWeekly (w : Weekly) (d : Day) (v : DaySched) : Weekly :=
  fun x => if x = d then v else w x

def setClosedStep (w : Weekly) (d : Day) : Weekly := updWeekly w d .closed

/-- `for day in days: weekly[day] = "closed"`. -/
def setClosedDays (w : Weekly) (days : List Day) : Weekly :=
  days.foldl setClosedStep w

/-- `if weekly.get(day) != "closed": weekly[day].extend(blocks)`. -/
def extendStep (bs : List Block) (w : Weekly) (d : Day) : Weekly :=
  match w d with
  | .closed => w
  | .blocks old => updWeekly w d (.blocks (old ++ bs))

/-- `for day in days: if weekly.get(day) != "closed": weekly[day].extend(blocks)`. -/
def extendDays (w : Weekly) (days : List Day) (bs : List Block) : Weekly :=
  days.foldl (extendStep bs) w

/-- Python `sorted` (lexicographic by code point) restricted to the
duplicate-free lists produced by `raw_titles` sets. -/
def strLt : List Char → List Char → Bool
  | [], [] => false
  | [], _ :: _ => true
  | _ :: _, [] => false
  | a :: as_, b :: bs => if a.toNat < b.toNat then true
      else if b.toNat < a.toNat then false else strLt as_ bs

def insertSorted (x : List Char) : List (List Char) → List (List Char)
  | [] => [x]
  | y :: ys => if strLt x y then x :: y :: ys else y :: insertSorted x ys

def sortStrs : List (List Char) → List (List Char)
  | [] => []
  | x :: xs => insertSorted x (sortStrs xs)

/-- One iteration of the entry loop of `build_schedule_fixed`.  On an
explicit-closed entry the loop `continue`s, so neither `raw_titles` nor
special-tag blocks of that entry reach the exceptions. -/
def processEntry (st : BuildState) (e : Entry) : BuildState :=
  let ds := split_and_normalize_days e.title
  if explicitClosed e.dtl then
    { st with weekly := setClosedDays st.weekly ds.1 }
  else
    let blocks := parse_time_ranges e.dtl
    let weekly := extendDays st.weekly ds.1 blocks
    let ex0 := { st.exceptions with
      policies := st.exceptions.policies ++ sortStrs ds.2.raw_titles }
    let ex1 := if ds.2.ph then
        { ex0 with public_holiday := ex0.public_holiday ++ blocks } else ex0
    let ex2 := if ds.2.before_ph then
        { ex1 with day_before_public_holiday := ex1.day_before_public_holiday ++ blocks }
      else ex1
    let ex3 := if ds.2.after_ph then
        { ex2 with day_after_public_holiday := ex2.day_after_public_holiday ++ blocks }
      else ex2
    { weekly := weekly, exceptions := ex3 }

def initialState : BuildState :=
  ⟨fun _ => .blocks [], ⟨[], [], [], []⟩⟩

/-- `build_schedule_fixed`; `notes_closed_on` models a structured-notes
dict whose `closed_on` field is truthy (`none` otherwise). -/
def build_schedule_fixed (hours_raw : List Entry)
    (notes_closed_on : Option (List Char)) : BuildState :=
  let st := hours_raw.foldl processEntry initialState
  match notes_closed_on with
  | some s =>
    { st with exceptions :=
        { st.exceptions with policies := st.exceptions.policies ++ [s] } }
  | none => st

/-! ### Fixtures and spec-side comparison definitions -/

/-- A `22:00-02:00` block (crosses midnight), no last order. -/
def blk2202 : Block := ⟨⟨22,0⟩, ⟨2,0⟩, true, none, false⟩

/-- A `22:00-02:00` block with a generic last order at `22:30`. -/
def blkC3 : Block := ⟨⟨22,0⟩, ⟨2,0⟩, true, some ⟨some ⟨22,30⟩, none, none⟩, false⟩

/-- A `15:00-18:00` block. -/
def bC2a : Block := ⟨⟨15,0⟩, ⟨18,0⟩, false, none, false⟩

/-- An `11:00-12:00` block, listed after `bC2a`. -/
def bC2b : Block := ⟨⟨11,0⟩, ⟨12,0⟩, false, none, false⟩

/-- Comparison target following the spec's words for `opens_in_min`:
"the minimum, over today's blocks excluding any carried-from-previous
block, of (open − now) for blocks whose open is strictly greater than
now" — order-independent, unlike the source's first-hit loop. -/
def opensInMinSpecMinimum (bs : List Block) (now : Int) : Option Int :=
  listMin
    ((bs.filter fun b => !b.carried_from_prev && decide (toMinutes b.open_time > now)).map
      fun b => toMinutes b.open_time - now)

/-- The minimum last-order deadline of a block, if any kind is present. -/
def loMinOf (b : Block) : Option Int := listMin (loTimes b)

/-- Which `last_order` key a marker writes: 0 generic, 1 food, 2 drinks. -/
def loTarget (l : LoM) : Nat :=
  match l.kind with
  | none => 0
  | some q => if containsSub ['d','r','i','n','k'] q then 2 else 1

/-- The `last_order` field a marker targets, read from a dict. -/
def loTargetField (acc : LastOrder) (l : LoM) : Option Hm :=
  match l.kind with
  | none => acc.generic
  | some q => if containsSub ['d','r','i','n','k'] q then acc.drinks else acc.food

/-- Cyclic mon..sun distance between day indices (both < 7). -/
def cyclicDist (ia ib : Nat) : Nat := (ib + 7 - ia) % 7

/-- The last-order windowing example detail string of the spec. -/
def c6detail : List Char :=
  "11:30-14:00 (LO 13:30) 17:30-22:00 (LO Food 21:00 / LO Drink 21:30)".toList

/-- Entry whose detail contains "closed" and a range written with "to". -/
def e8 : Entry := ⟨"Mon".toList, "Closed except 11:00 to 14:00".toList⟩

/-- Two entries sharing the opaque title "Irregular". -/
def e10a : Entry := ⟨"Irregular".toList, "11:00-14:00".toList⟩

def e10b : Entry := ⟨"Irregular".toList, "15:00-18:00".toList⟩

/-- A state in which every weekday is already `Closed`. -/
def stAllClosed : BuildState := ⟨fun _ => .closed, ⟨[], [], [], []⟩⟩

/-- Per-entry contribution to `policies`: nothing for an explicit-closed
entry (the loop `continue`s), else the entry's sorted raw-title set. -/
def policiesPerEntrySpec (e : Entry) : List (List Char) :=
  if explicitClosed e.dtl then []
  else sortStrs (split_and_normalize_days e.title).2.raw_titles

/-! ### Helper lemmas -/

theorem findOpenBlock_eq_none (bs : List Block) (now : Int)
    (h : ∀ b ∈ bs, inWindow b now = false) : findOpenBlock bs now = none := by
  induction bs with
  | nil => rfl
  | cons x xs ih =>
    simp only [findOpenBlock, h x (by simp), Bool.false_eq_true, if_false]
    exact ih fun b hb => h b (by simp [hb])

theorem calc_open_now_found (bs : List Block) (now : Int) (b : Block)
    (h : findOpenBlock bs now = some b) :
    calc_open_now bs now =
      .isOpen ⟨b.open_time, b.close_time, segLastOrder b⟩ (closesIn b now)
        (loIn b now) b.crosses_midnight := by
  cases bs with
  | nil => simp [findOpenBlock] at h
  | cons x xs => simp [calc_open_now, h]

theorem firstFuture_eq_head (bs : List Block) (now : Int) :
    firstFuture bs now =
      ((bs.filter fun b => !b.carried_from_prev && decide (toMinutes b.open_time > now)).head?).map
        (fun b => toMinutes b.open_time - now) := by
  induction bs with
  | nil => rfl
  | cons x xs ih =>
    cases hc : x.carried_from_prev with
    | true => simpa [firstFuture, List.filter, hc] using ih
    | false =>
      by_cases ho : toMinutes x.open_time > now
      · simp [firstFuture, List.filter, hc, ho]
      · simpa [firstFuture, List.filter, hc, ho] using ih

theorem closesIn_formula (b : Block) (now : Int) :
    closesIn b now =
      toMinutes b.close_time - now +
        (if b.crosses_midnight = true ∧ now ≥ toMinutes b.open_time then 1440 else 0) := by
  unfold closesIn
  cases hb : b.crosses_midnight with
  | false => simp [hb]
  | true =>
    by_cases hn : now ≥ toMinutes b.open_time
    · simp only [hb, if_true, hn, true_and, if_pos]; ring
    · simp only [hb, if_true, hn, and_false, false_and, if_neg, not_false_iff]; omega

/-! ### Claim theorems -/

/-- C1: for a `22:00-02:00` crossing block alone, the evaluator reports
Open with `closes_in_min = 60` at 01:00, Open with `closes_in_min = 180`
at 23:00, Closed at 10:00; in general the matched block's
`closes_in_min` is the minutes until close, adding 1440 exactly when the
window crosses midnight and `now` is in the before-midnight half. -/
theorem c1_midnight_closes_in :
    (∀ (bs : List Block) (now : Int) (b : Block),
        findOpenBlock bs now = some b →
        calc_open_now bs now =
          .isOpen ⟨b.open_time, b.close_time, segLastOrder b⟩
            (toMinutes b.close_time - now +
              (if b.crosses_midnight = true ∧ now ≥ toMinutes b.open_time then 1440 else 0))
            (loIn b now) b.crosses_midnight)
    ∧ calc_open_now [blk2202] 60 = .isOpen ⟨⟨22,0⟩, ⟨2,0⟩, none⟩ 60 none true
    ∧ calc_open_now [blk2202] 1380 = .isOpen ⟨⟨22,0⟩, ⟨2,0⟩, none⟩ 180 none true
    ∧ calc_open_now [blk2202] 600 = .closed (some 720) := by
  refine ⟨?_, by decide, by decide, by decide⟩
  intro bs now b h
  rw [calc_open_now_found bs now b h, closesIn_formula]

/-- C1 witness: the general clause applied to the concrete midnight
block at 01:00. -/
theorem c1_midnight_closes_in_witness :
    calc_open_now [blk2202] 60 = .isOpen ⟨⟨22,0⟩, ⟨2,0⟩, none⟩ 60 none true := by
  have h := c1_midnight_closes_in.1 [blk2202] 60 blk2202 (by decide)
  exact h.trans (by decide)

/-- C2 counterexample: with blocks listed as 15:00-18:00 then
11:00-12:00 and `now = 10:00`, the evaluator reports `opens_in_min =
300` (the first future block in list order), not the minimum 60 the
claim demands. -/
theorem c2_counterexample :
    calc_open_now [bC2a, bC2b] 600 = .closed (some 300)
    ∧ opensInMinSpecMinimum [bC2a, bC2b] 600 = some 60
    ∧ calc_open_now [bC2a, bC2b] 600 ≠ .closed (opensInMinSpecMinimum [bC2a, bC2b] 600) := by
  decide

/-- C2 amended: on a non-empty list with no matching block,
`opens_in_min` comes from the FIRST block in list order among
non-carried blocks with `open > now` (not the minimum over all of
them); null when no such block exists. -/
theorem c2_first_future :
    ∀ (bs : List Block) (now : Int), bs ≠ [] →
      (∀ b ∈ bs, inWindow b now = false) →
      calc_open_now bs now =
        .closed (((bs.filter fun b => !b.carried_from_prev && decide (toMinutes b.open_time > now)).head?).map
          (fun b => toMinutes b.open_time - now)) := by
  intro bs now hne hall
  rw [← firstFuture_eq_head]
  cases bs with
  | nil => exact absurd rfl hne
  | cons x xs => simp [calc_open_now, findOpenBlock_eq_none _ now hall]

/-- C2 witness: the amended clause at the concrete two-block list. -/
theorem c2_first_future_witness :
    calc_open_now [bC2a, bC2b] 600 = .closed (some 300) := by
  have h := c2_first_future [bC2a, bC2b] 600 (by decide) (by decide)
  exact h.trans (by decide)

/-- C3 counterexample: crossing block `22:00-02:00` with generic last
order `22:30`; at `now = 23:00` the deadline has passed
(`toMinutes ⟨22,30⟩ < 1380`) yet `lo_in_min` is `some 0`, not null. -/
theorem c3_counterexample :
    calc_open_now [blkC3] 1380 =
      .isOpen ⟨⟨22,0⟩, ⟨2,0⟩, some ⟨some ⟨22,30⟩, none, none⟩⟩ 180 (some 0) true
    ∧ toMinutes ⟨22,30⟩ < 1380
    ∧ loIn blkC3 1380 ≠ none := by
  decide

/-- C3 amended: `lo_in_min` uses the minimum present deadline; a passed
deadline yields null only for a non-crossing block or in the
after-midnight half of a crossing block — in the before-midnight half a
passed deadline at or after `open` is clamped to 0 instead. -/
theorem c3_lo_in_rule :
    (∀ (b : Block) (now : Int), loMinOf b = none → loIn b now = none)
    ∧ (∀ (b : Block) (now lt : Int), loMinOf b = some lt →
        loIn b now =
          if b.crosses_midnight = true then
            if now ≥ toMinutes b.open_time then
              if lt ≥ toMinutes b.open_time then some (max (lt - now) 0)
              else some ((24*60 - now) + lt)
            else if lt ≥ now then some (max (lt - now) 0) else none
          else if now ≤ lt ∧ lt ≤ toMinutes b.close_time then some (max (lt - now) 0)
            else none)
    ∧ (∀ (bs : List Block) (now : Int) (b : Block),
        findOpenBlock bs now = some b →
        calc_open_now bs now =
          .isOpen ⟨b.open_time, b.close_time, segLastOrder b⟩ (closesIn b now)
            (loIn b now) b.crosses_midnight)
    ∧ calc_open_now [blkC3] 1380 =
        .isOpen ⟨⟨22,0⟩, ⟨2,0⟩, some ⟨some ⟨22,30⟩, none, none⟩⟩ 180 (some 0) true := by
  refine ⟨?_, ?_, calc_open_now_found, by decide⟩
  · intro b now h
    unfold loIn
    rw [show listMin (loTimes b) = loMinOf b from rfl, h]
  · intro b now lt h
    unfold loIn
    rw [show listMin (loTimes b) = loMinOf b from rfl, h]

/-- C3 witness: the amended rule applied to the concrete block at 23:00,
where the minimum deadline 1350 is below `now` but at or after `open`. -/
theorem c3_lo_in_rule_witness :
    loIn blkC3 1380 = some 0 := by
  have h := c3_lo_in_rule.2.1 blkC3 1380 1350 (by decide)
  exact h.trans (by decide)

theorem setClosedDays_pres (days : List Day) (w : Weekly) (d : Day)
    (h : w d = .closed) : setClosedDays w days d = .closed := by
  induction days generalizing w with
  | nil => exact h
  | cons x xs ih =>
    show setClosedDays (setClosedStep w x) xs d = .closed
    apply ih
    simp only [setClosedStep, updWeekly]
    split_ifs with hx
    · rfl
    · exact h

theorem extendStep_pres (bs : List Block) (w : Weekly) (x d : Day)
    (h : w d = .closed) : extendStep bs w x d = .closed := by
  unfold extendStep
  cases hw : w x with
  | closed => exact h
  | blocks old =>
    simp only [updWeekly]
    split_ifs with hx
    · subst hx; rw [h] at hw; exact absurd hw (by simp)
    · exact h

theorem extendDays_pres (days : List Day) (bs : List Block) (w : Weekly) (d : Day)
    (h : w d = .closed) : extendDays w days bs d = .closed := by
  induction days generalizing w with
  | nil => exact h
  | cons x xs ih =>
    show extendDays (extendStep bs w x) xs bs d = .closed
    exact ih _ (extendStep_pres bs w x d h)

theorem processEntry_pres_closed (st : BuildState) (e : Entry) (d : Day)
    (h : st.weekly d = .closed) : (processEntry st e).weekly d = .closed := by
  unfold processEntry
  by_cases hex : explicitClosed e.dtl
  · simp only [hex, if_true]
    exact setClosedDays_pres _ _ _ h
  · simp only [hex, Bool.false_eq_true, if_false]
    exact extendDays_pres _ _ _ _ h

/-- C4: `Closed` is absorbing during schedule building: once an entry
has set a weekday to `Closed`, no later entry of the same pass changes
that day or appends blocks to it; in particular
`[("Mon","Closed"), ("Mon","11:00-14:00")]` leaves Mon `Closed`. -/
theorem c4_sticky_closed :
    (∀ (st : BuildState) (e : Entry) (d : Day), st.weekly d = .closed →
        (processEntry st e).weekly d = .closed)
    ∧ (∀ (entries : List Entry) (st : BuildState) (d : Day), st.weekly d = .closed →
        (entries.foldl processEntry st).weekly d = .closed)
    ∧ (build_schedule_fixed [⟨"Mon".toList, "Closed".toList⟩,
        ⟨"Mon".toList, "11:00-14:00".toList⟩] none).weekly .mon = .closed := by
  refine ⟨processEntry_pres_closed, ?_, by decide⟩
  intro entries
  induction entries with
  | nil => intro st d h; exact h
  | cons e es ih =>
    intro st d h
    exact ih _ d (processEntry_pres_closed st e d h)

/-- C4 witness: a later `11:00-14:00` entry cannot reopen a closed Mon. -/
theorem c4_sticky_closed_witness :
    (processEntry stAllClosed ⟨"Mon".toList, "11:00-14:00".toList⟩).weekly .mon
      = .closed :=
  c4_sticky_closed.1 stAllClosed _ .mon (by decide)

/-- C5 counterexample: `"17:00-26:00"` is NOT rejected — `RANGE_RE`
accepts any 1-2 digit hour, so one block is produced (close stays
`26:00`, i.e. 1560 minutes). -/
theorem c5_counterexample :
    parse_time_ranges "17:00-26:00".toList = [⟨⟨17,0⟩, ⟨26,0⟩, false, none, false⟩]
    ∧ parse_time_ranges "17:00-26:00".toList ≠ [] := by
  decide

/-- C5 amended: the range regex places no 0-24 bound on hours;
`"17:00-26:00"` parses to one block with close minutes 1560 and
`crosses_midnight = false`, while `"17:00-24:00"` normalizes close to 0
and crosses midnight because `0 ≤ 1020`. -/
theorem c5_hour_bounds :
    parse_time_ranges "17:00-26:00".toList = [⟨⟨17,0⟩, ⟨26,0⟩, false, none, false⟩]
    ∧ toMinutes ⟨26,0⟩ = 1560
    ∧ parse_time_ranges "17:00-24:00".toList = [⟨⟨17,0⟩, ⟨24,0⟩, true, none, false⟩]
    ∧ toMinutes ⟨24,0⟩ = 0
    ∧ toMinutes ⟨24,0⟩ ≤ toMinutes ⟨17,0⟩ := by
  decide

theorem foldl_guard_filter {α β : Type} (p : α → Bool) (f : β → α → β) :
    ∀ (l : List α) (init : β),
      l.foldl (fun acc x => if p x then f acc x else acc) init =
        (l.filter p).foldl f init := by
  intro l
  induction l with
  | nil => intro init; rfl
  | cons x xs ih =>
    intro init
    by_cases hp : p x
    · simp [List.filter_cons, hp, List.foldl_cons, ih]
    · simp [List.filter_cons, hp, List.foldl_cons, ih]

theorem buildBlocks_get (rs : List RangeM) (los : List LoM) :
    ∀ (i : Nat) (r : RangeM),
      rs.get? i = some r →
      (buildBlocks rs los).get? i =
        some (mkBlock r.rstart ((rs.get? (i+1)).map (·.rstart)) r.s r.e los) := by
  induction rs with
  | nil => intro i r h; simp at h
  | cons x xs ih =>
    intro i r h
    cases i with
    | zero =>
      simp only [List.get?] at h
      injection h with h
      subst h
      simp only [buildBlocks, List.get?]
      cases xs <;> rfl
    | succ n =>
      simp only [List.get?] at h ⊢
      exact ih n r h

theorem mkBlock_last_order (rs : Nat) (nextStart : Option Nat) (t1 t2 : Hm)
    (los : List LoM) :
    (mkBlock rs nextStart t1 t2 los).last_order =
      (let folded := ((los.filter fun l => inLoWindow rs nextStart l.lpos).foldl
          loKindAssign LastOrder.empty)
       if folded = LastOrder.empty then none else some folded) := by
  simp only [mkBlock, foldl_guard_filter]

set_option maxHeartbeats 2000000 in
/-- C6: every LO marker lands in the block of the range whose text
window (range start up to the next range's start) holds its position;
same-kind markers in one window are last-write-wins while different
kinds coexist; a window with no marker gives `last_order = null`; and
the spec's two-block example parses as stated. -/
theorem c6_lo_windowing :
    (∀ (dtl : List Char) (i : Nat) (b : Block) (r : RangeM),
        (findRangesAux (norm dtl) 0).get? i = some r →
        (parse_time_ranges dtl).get? i = some b →
        b.last_order =
          (let folded := (((findLOsAux (norm dtl) 0).filter fun l =>
              inLoWindow r.rstart
                (((findRangesAux (norm dtl) 0).get? (i+1)).map (·.rstart)) l.lpos).foldl
              loKindAssign LastOrder.empty)
           if folded = LastOrder.empty then none else some folded))
    ∧ (∀ (acc : LastOrder) (xs : List LoM) (l : LoM),
        loTargetField (List.foldl loKindAssign acc (xs ++ [l])) l = some l.t)
    ∧ (∀ (acc : LastOrder) (l m : LoM), loTarget m ≠ loTarget l →
        loTargetField (loKindAssign acc l) m = loTargetField acc m)
    ∧ parse_time_ranges c6detail =
        [⟨⟨11,30⟩, ⟨14,0⟩, false, some ⟨some ⟨13,30⟩, none, none⟩, false⟩,
         ⟨⟨17,30⟩, ⟨22,0⟩, false, some ⟨none, some ⟨21,0⟩, some ⟨21,30⟩⟩, false⟩] := by
  refine ⟨?_, ?_, ?_, by decide⟩
  · intro dtl i b r hr hb
    rw [show parse_time_ranges dtl
        = buildBlocks (findRangesAux (norm dtl) 0) (findLOsAux (norm dtl) 0) from rfl,
      buildBlocks_get _ _ i r hr] at hb
    injection hb with hb
    subst hb
    exact mkBlock_last_order _ _ _ _ _
  · intro acc xs l
    rw [List.foldl_append]
    simp only [List.foldl_cons, List.foldl_nil]
    cases hk : l.kind with
    | none => simp [loKindAssign, loTargetField, hk]
    | some q =>
      by_cases hd : containsSub ['d','r','i','n','k'] q = true
      · simp [loKindAssign, loTargetField, hk, hd]
      · simp [loKindAssign, loTargetField, hk, hd]
  · intro acc l m hne
    cases hl : l.kind with
    | none =>
      cases hm : m.kind with
      | none => simp [loTarget, hl, hm] at hne
      | some qm =>
        by_cases hdm : containsSub ['d','r','i','n','k'] qm = true
        · simp [loKindAssign, loTargetField, hl, hm, hdm]
        · simp [loKindAssign, loTargetField, hl, hm, hdm]
    | some ql =>
      by_cases hdl : containsSub ['d','r','i','n','k'] ql = true
      · cases hm : m.kind with
        | none => simp [loKindAssign, loTargetField, hl, hm, hdl]
        | some qm =>
          by_cases hdm : containsSub ['d','r','i','n','k'] qm = true
          · simp [loTarget, hl, hm, hdl, hdm] at hne
          · simp [loKindAssign, loTargetField, hl, hm, hdl, hdm]
      · cases hm : m.kind with
        | none => simp [loKindAssign, loTargetField, hl, hm, hdl]
        | some qm =>
          by_cases hdm : containsSub ['d','r','i','n','k'] qm = true
          · simp [loKindAssign, loTargetField, hl, hm, hdl, hdm]
          · simp [loTarget, hl, hm, hdl, hdm] at hne

set_option maxHeartbeats 2000000 in
/-- C6 witness: the windowing clause applied to block 0 of the spec's
example, whose window holds exactly the generic `13:30` marker. -/
theorem c6_lo_windowing_witness :
    (⟨⟨11,30⟩, ⟨14,0⟩, false, some ⟨some ⟨13,30⟩, none, none⟩, false⟩ : Block).last_order
      = some ⟨some ⟨13,30⟩, none, none⟩ := by
  have h := c6_lo_windowing.1 c6detail 0
    ⟨⟨11,30⟩, ⟨14,0⟩, false, some ⟨some ⟨13,30⟩, none, none⟩, false⟩
    ⟨0, 11, ⟨11,30⟩, ⟨14,0⟩⟩ (by decide) (by decide)
  exact h.trans (by decide)

set_option maxHeartbeats 1000000 in
/-- C7: a `Day-Day` title range (hyphen, en-dash, or the word "to")
whose ends resolve to canonical days expands inclusively along the
cyclic mon..sun order, wrapping when the end index precedes the start;
the expansion is duplicate-free of size cyclic distance + 1, e.g.
`"Sat-Mon"` gives `{sat, sun, mon}` of size 3. -/
theorem c7_day_range_expansion :
    (∀ ia ib : Fin 7,
        (expandDays ia.val ib.val).length = cyclicDist ia.val ib.val + 1
        ∧ (expandDays ia.val ib.val).Nodup)
    ∧ (∀ (acc : List Day × SpecialInfo) (c t1 t2 : List Char) (d1 d2 : Day),
        dayAlias (lowerStr c) = none →
        specialKey (lowerStr c) = none →
        matchDayRange (key2Of (lowerStr c)) = some (t1, t2) →
        resolveDayTok t1 = some d1 →
        resolveDayTok t2 = some d2 →
        processChunk acc c = (acc.1 ++ expandDays (dayIndex d1) (dayIndex d2), acc.2))
    ∧ split_and_normalize_days "Sat-Mon".toList = ([.sat, .sun, .mon], emptySpecial)
    ∧ (split_and_normalize_days "Sat-Mon".toList).1.length = cyclicDist 5 0 + 1
    ∧ split_and_normalize_days "Wed to Fri".toList = ([.wed, .thu, .fri], emptySpecial)
    ∧ split_and_normalize_days "Sat–Mon".toList = ([.sat, .sun, .mon], emptySpecial) := by
  refine ⟨by decide, ?_, by decide, by decide, by decide, by decide⟩
  intro acc c t1 t2 d1 d2 h1 h2 h3 h4 h5
  simp [processChunk, h1, h2, h3, h4, h5]

set_option maxHeartbeats 1000000 in
/-- C7 witness: the range clause applied to the chunk `"Sat-Mon"`. -/
theorem c7_day_range_expansion_witness :
    processChunk ([], emptySpecial) "Sat-Mon".toList
      = ([.sat, .sun, .mon], emptySpecial) := by
  have h := c7_day_range_expansion.2.1 ([], emptySpecial) "Sat-Mon".toList
    "sat".toList "mon".toList .sat .mon
    (by decide) (by decide) (by decide) (by decide) (by decide)
  exact h.trans (by decide)

theorem setClosedDays_eq (days : List Day) (w : Weekly) (d : Day) :
    setClosedDays w days d = if d ∈ days then .closed else w d := by
  induction days generalizing w with
  | nil => simp [setClosedDays]
  | cons x xs ih =>
    show setClosedDays (setClosedStep w x) xs d = _
    rw [ih]
    by_cases hd : d ∈ xs
    · simp [hd]
    · by_cases hx : d = x
      · simp [setClosedStep, updWeekly, hd, hx]
      · simp [setClosedStep, updWeekly, hd, hx]

set_option maxHeartbeats 1000000 in
/-- C8 counterexample: `"Closed except 11:00 to 14:00"` contains a
range the extractor vocabulary parses (via the `"to"` normalization of
`_norm`), yet the entry is treated as explicit-closed, because the
check runs `RANGE_RE` on the raw lower-cased detail where `"to"` is not
a range separator. -/
theorem c8_counterexample :
    explicitClosed e8.dtl = true
    ∧ parse_time_ranges e8.dtl = [⟨⟨11,0⟩, ⟨14,0⟩, false, none, false⟩]
    ∧ (build_schedule_fixed [e8] none).weekly .mon = .closed := by
  decide

set_option maxHeartbeats 1000000 in
/-- C8 amended: an entry is explicit-closed iff its trimmed, lower-cased
detail equals "closed", or contains "closed" and `RANGE_RE` (hyphen,
en-dash, ASCII-tilde separators, applied to that raw lowered text with
no "to"/unicode-dash normalization) finds no range in it; then every
resolved weekday is set to `Closed`, no blocks are appended, and the
exception set is untouched. -/
theorem c8_explicit_closed :
    (∀ (dtl : List Char),
        explicitClosed dtl = true ↔
          (lowerStr (stripPy dtl) = "closed".toList
            ∨ (containsSub ['c','l','o','s','e','d'] (lowerStr (stripPy dtl)) = true
                ∧ findRangesAux (lowerStr (stripPy dtl)) 0 = [])))
    ∧ (∀ (st : BuildState) (e : Entry), explicitClosed e.dtl = true →
        (∀ d : Day, (processEntry st e).weekly d =
            if d ∈ (split_and_normalize_days e.title).1 then .closed else st.weekly d)
        ∧ (processEntry st e).exceptions = st.exceptions)
    ∧ explicitClosed e8.dtl = true
    ∧ parse_time_ranges e8.dtl ≠ [] := by
  refine ⟨?_, ?_, by decide, by decide⟩
  · intro dtl
    simp [explicitClosed, rangeSearch, List.isEmpty_iff]
  · intro st e hex
    constructor
    · intro d
      unfold processEntry
      simp only [hex, if_true]
      exact setClosedDays_eq _ _ _
    · unfold processEntry
      simp only [hex, if_true]

set_option maxHeartbeats 1000000 in
/-- C8 witness: the closing clause applied to the fixture entry. -/
theorem c8_explicit_closed_witness :
    (processEntry initialState e8).weekly .mon = .closed := by
  have h := (c8_explicit_closed.2.1 initialState e8 (by decide)).1 .mon
  exact h.trans (by decide)

/-- C9 counterexample: `"foo-bar"` matches the Day-Day range syntax but
neither endpoint is a day token; the chunk is silently dropped — no
weekday and, contrary to the claim, no opaque exception string. -/
theorem c9_counterexample :
    split_and_normalize_days "foo-bar".toList = ([], emptySpecial)
    ∧ (split_and_normalize_days "foo-bar".toList).2.raw_titles = [] := by
  decide

/-- C9 amended: a chunk that is no day token, no special phrase and does
NOT match the Day-Day range pattern is recorded verbatim in the
deduplicated raw-title set and contributes no weekday; but a chunk that
matches the range pattern with endpoints that fail to resolve is
silently dropped, contributing neither a weekday nor an exception
string. -/
theorem c9_unrecognized_chunks :
    (∀ (acc : List Day × SpecialInfo) (c : List Char),
        dayAlias (lowerStr c) = none →
        specialKey (lowerStr c) = none →
        matchDayRange (key2Of (lowerStr c)) = none →
        processChunk acc c = (acc.1, addRawTitle acc.2 c))
    ∧ (∀ (acc : List Day × SpecialInfo) (c t1 t2 : List Char),
        dayAlias (lowerStr c) = none →
        specialKey (lowerStr c) = none →
        matchDayRange (key2Of (lowerStr c)) = some (t1, t2) →
        (resolveDayTok t1 = none ∨ resolveDayTok t2 = none) →
        processChunk acc c = acc)
    ∧ split_and_normalize_days "foo-bar".toList = ([], emptySpecial) := by
  refine ⟨?_, ?_, by decide⟩
  · intro acc c h1 h2 h3
    simp [processChunk, h1, h2, h3]
  · intro acc c t1 t2 h1 h2 h3 h4
    cases ht1 : resolveDayTok t1 with
    | none => simp [processChunk, h1, h2, h3, ht1]
    | some d1 =>
      rcases h4 with h4 | h4
      · rw [ht1] at h4; exact absurd h4 (by simp)
      · simp [processChunk, h1, h2, h3, ht1, h4]

/-- C9 witness: the record clause applied to the chunk `"Irregular"`. -/
theorem c9_unrecognized_chunks_witness :
    processChunk ([], emptySpecial) "Irregular".toList
      = ([], ⟨false, false, false, ["Irregular".toList]⟩) := by
  have h := c9_unrecognized_chunks.1 ([], emptySpecial) "Irregular".toList
    (by decide) (by decide) (by decide)
  exact h.trans (by decide)

set_option maxHeartbeats 1000000 in
/-- C10 counterexample: the same opaque title `"Irregular"` on two
entries appears twice in `policies` — the union is deduplicated only
within one entry, not across entries. -/
theorem c10_counterexample :
    (build_schedule_fixed [e10a, e10b] none).exceptions.policies
      = ["Irregular".toList, "Irregular".toList]
    ∧ List.count "Irregular".toList
        (build_schedule_fixed [e10a, e10b] none).exceptions.policies = 2 := by
  decide

theorem processEntry_policies (st : BuildState) (e : Entry) :
    (processEntry st e).exceptions.policies
      = st.exceptions.policies ++ policiesPerEntrySpec e := by
  unfold processEntry policiesPerEntrySpec
  by_cases hex : explicitClosed e.dtl
  · simp [hex]
  · simp only [hex, Bool.false_eq_true, if_false]
    split_ifs <;> rfl

set_option maxHeartbeats 1000000 in
/-- C10 amended: `policies` is the in-order concatenation of each
entry's own sorted, per-entry-deduplicated raw-title set (explicit-
closed entries contribute nothing); titles repeated across entries
therefore repeat in `policies`. -/
theorem c10_policies_concat :
    (∀ (entries : List Entry),
        (build_schedule_fixed entries none).exceptions.policies
          = (entries.map policiesPerEntrySpec).flatten)
    ∧ (build_schedule_fixed [e10a, e10b] none).exceptions.policies
        = ["Irregular".toList, "Irregular".toList] := by
  refine ⟨?_, by decide⟩
  intro entries
  have key : ∀ (es : List Entry) (st : BuildState),
      (es.foldl processEntry st).exceptions.policies
        = st.exceptions.policies ++ (es.map policiesPerEntrySpec).flatten := by
    intro es
    induction es with
    | nil => intro st; simp
    | cons e es ih =>
      intro st
      rw [List.foldl_cons, ih, processEntry_policies]
      simp [List.append_assoc]
  rw [show build_schedule_fixed entries none
      = entries.foldl processEntry initialState from rfl, key]
  rfl

set_option maxHeartbeats 1000000 in
/-- C10 witness: the concatenation clause at the two-entry fixture. -/
theorem c10_policies_concat_witness :
    (build_schedule_fixed [e10a, e10b] none).exceptions.policies
      = ([e10a, e10b].map policiesPerEntrySpec).flatten := by
  exact c10_policies_concat.1 [e10a, e10b]

end BuildGeojson
